import Mathlib

/-!
Verification development for the banking account management system
(accounts service, memory/postgres ledger repositories, per-key mutex,
retry policy).  The definitions below are shallow embeddings of the
TypeScript source:

  * src/modules/accounts/service.ts        (AccountsService)
  * src/infra/memory/memoryAccountsRepo.ts (MemoryAccountsRepository)
  * src/infra/memory/memoryTransactionsRepo.ts
  * src/infra/postgres/postgresAccountsRepo.ts
  * src/infra/memory/mutex.ts              (Mutex, MutexMap)

Opaque string identifiers (account ids, person ids, idempotency keys,
account types) are modelled as natural numbers; timestamps are epoch
milliseconds, and the UTC calendar day of an ISO timestamp
(`date.toISOString().slice(0, 10)`) is modelled as division by the
number of milliseconds per day.  Monetary values are integers (`Int`),
exactly as the source keeps all amounts in integer cents.
-/

/-- AccountsService.MAX_CENTS = 2_000_000_000 (service.ts line 33). -/
def MAX_CENTS : Int := 2000000000

/-- Number.MAX_SAFE_INTEGER = 2^53 - 1, the overflow bound used by
the atomic deposit guard (memoryAccountsRepo.ts line 97,
postgresAccountsRepo.ts line 255). -/
def maxSafeInteger : Int := 9007199254740991

/-- Milliseconds per UTC calendar day. -/
def msPerDay : Nat := 86400000

/-- UTC calendar day of an epoch-milliseconds timestamp; models
`isoTimestamp.slice(0, 10)` / `transaction_date::date`. -/
def dayOf (ts : Nat) : Nat := ts / msPerDay

/-- Account row (modules/accounts/repository.ts `Account`). -/
structure Account where
  personId : Nat
  balanceCents : Int
  dailyWithdrawalLimitCents : Int
  activeFlag : Bool
  accountType : Nat
  createDate : Nat
  deriving DecidableEq, Repr

/-- Journal entry (modules/transactions/transactions.repository.ts
`Transaction`, current revision with `balanceAfter` and
`idempotencyKey`). -/
structure Txn where
  transactionId : Nat
  accountId : Nat
  valueCents : Int
  transactionDate : Nat
  balanceAfter : Int
  idempotencyKey : Option Nat
  deriving DecidableEq, Repr

/-- Domain error taxonomy (common/errors.ts).  Error kinds that carry a
caller-visible message in the source carry it here as well. -/
inductive Err where
  | notFound
  | personNotFound
  | accountBlocked
  | alreadyBlocked
  | alreadyUnblocked
  | invalidAmount (message : String)
  | insufficientFunds (message : String)
  | dailyLimitExceeded
  | internal (message : String)
  deriving DecidableEq, Repr

/-- Default InvalidAmountError message (common/errors.ts). -/
def invalidAmountDefaultMsg : String := "Amount must be greater than zero"

/-- Default InsufficientFundsError message (common/errors.ts). -/
def insufficientFundsDefaultMsg : String := "Insufficient funds"

/-- AccountsService.validateCents message, `label + " exceeds allowed
limits"` (service.ts line 558). -/
def validateCentsMsg (label : String) : String := label ++ (" exceeds allowed limits")

/-- Overflow message thrown by the atomic deposit
(memoryAccountsRepo.ts line 98). -/
def overflowMsg : String := "Balance overflow: result exceeds safe integer limit"

/-- Cross-account idempotency-key conflict message
(memoryAccountsRepo.ts lines 81-83). -/
def idempotencyConflictMsg : String := "Idempotency key already used for different account"

/-- Ledger store state: the accounts map (insertion-ordered, as a JS
`Map`), the append-only transaction journal, fresh-id counters
standing in for `randomUUID()` / `gen_random_uuid()`, and the set of
valid person ids (memoryAccountsRepo.ts `validPersonIds`). -/
structure LedgerState where
  accounts : List (Nat × Account)
  transactions : List Txn
  nextAccountId : Nat
  nextTransactionId : Nat
  validPersonIds : List Nat
  deriving DecidableEq, Repr

/-- MemoryAccountsRepository.getById: `this.accounts.get(accountId) ?? null`. -/
def getById (s : LedgerState) (accountId : Nat) : Option Account :=
  (s.accounts.find? (fun p => p.1 == accountId)).map (fun p => p.2)

/-- In-place update of an existing key, as `this.accounts.set(accountId, updated)`
behaves when the key is already present (insertion order preserved). -/
def setAccount (s : LedgerState) (accountId : Nat) (a : Account) : LedgerState :=
  { s with accounts := s.accounts.map (fun p => if p.1 == accountId then (p.1, a) else p) }

/-- MemoryTransactionsRepository.findByIdempotencyKey /
postgresTransactionsRepo `WHERE idempotency_key = $1 LIMIT 1`:
first journal entry carrying the key. -/
def findByIdempotencyKey (txs : List Txn) (key : Nat) : Option Txn :=
  txs.find? (fun t => t.idempotencyKey == some key)

/-- MemoryTransactionsRepository.sumWithdrawalsForDay: sum of
`Math.abs(valueCents)` over the account's negative-valued entries whose
transaction date falls on the given UTC day
(memoryTransactionsRepo.ts lines 91-97). -/
def sumWithdrawalsForDay (txs : List Txn) (accountId day : Nat) : Int :=
  (((txs.filter (fun t => t.accountId == accountId)).filter
      (fun t => dayOf t.transactionDate == day)).filter
      (fun t => decide (t.valueCents < 0))).foldl
    (fun total t => total + |t.valueCents|) 0

/-- Net sum of `valueCents` over one account's journal entries. -/
def txSumL (txs : List Txn) (accountId : Nat) : Int :=
  ((txs.filter (fun t => t.accountId == accountId)).map (fun t => t.valueCents)).sum

/-- Number.isSafeInteger for an integer value: `|v| ≤ 2^53 - 1`. -/
def isSafeInteger (v : Int) : Bool := decide (v.natAbs ≤ 9007199254740991)

/-- Failure condition of AccountsService.validateCents (service.ts
lines 556-560): `!Number.isSafeInteger(value) || value > MAX_CENTS`. -/
def centsInvalid (v : Int) : Bool := !isSafeInteger v || decide (v > MAX_CENTS)

/-- MemoryAccountsRepository.atomicDeposit (memoryAccountsRepo.ts lines
66-119); the postgres analogue (postgresAccountsRepo.ts lines 185-315)
has the same commit-level semantics.  Returns the response
`{balanceCents, transactionId}` together with the post-commit ledger
state; a thrown error rolls back, so the error branches return no
state. -/
def atomicDeposit (s : LedgerState) (accountId : Nat) (amountCents : Int)
    (transactionDate : Nat) (idempotencyKey : Option Nat) :
    Except Err (Int × Nat × LedgerState) :=
  match idempotencyKey.bind (findByIdempotencyKey s.transactions) with
  | some existing =>
    if existing.accountId == accountId then
      .ok (existing.balanceAfter, existing.transactionId, s)
    else
      .error (.invalidAmount idempotencyConflictMsg)
  | none =>
    match getById s accountId with
    | none => .error .notFound
    | some account =>
      if !account.activeFlag then .error .accountBlocked
      else
        let newBalance := account.balanceCents + amountCents
        if newBalance > maxSafeInteger then .error (.invalidAmount overflowMsg)
        else
          let tx : Txn :=
            { transactionId := s.nextTransactionId, accountId := accountId,
              valueCents := amountCents, transactionDate := transactionDate,
              balanceAfter := newBalance, idempotencyKey := idempotencyKey }
          let s' := setAccount s accountId { account with balanceCents := newBalance }
          .ok (newBalance, tx.transactionId,
            { s' with transactions := s.transactions ++ [tx],
                      nextTransactionId := s.nextTransactionId + 1 })

/-- MemoryAccountsRepository.atomicWithdraw (memoryAccountsRepo.ts
lines 121-193).  The `dailyWithdrawalLimit` parameter mirrors the
source signature; like the source, the body reads the limit from the
locked account row instead. -/
def atomicWithdraw (s : LedgerState) (accountId : Nat) (amountCents : Int)
    (dailyWithdrawalLimit : Int) (transactionDate : Nat) (today : Nat)
    (idempotencyKey : Option Nat) : Except Err (Int × Nat × LedgerState) :=
  match idempotencyKey.bind (findByIdempotencyKey s.transactions) with
  | some existing =>
    if existing.accountId == accountId then
      .ok (existing.balanceAfter, existing.transactionId, s)
    else
      .error (.invalidAmount idempotencyConflictMsg)
  | none =>
    match getById s accountId with
    | none => .error .notFound
    | some account =>
      if !account.activeFlag then .error .accountBlocked
      else if account.balanceCents < amountCents then
        .error (.insufficientFunds insufficientFundsDefaultMsg)
      else
        let dailyWithdrawals := sumWithdrawalsForDay s.transactions accountId today
        if dailyWithdrawals + amountCents > account.dailyWithdrawalLimitCents then
          .error .dailyLimitExceeded
        else
          let newBalance := account.balanceCents - amountCents
          if newBalance < 0 then .error (.insufficientFunds ("Balance cannot be negative"))
          else
            let tx : Txn :=
              { transactionId := s.nextTransactionId, accountId := accountId,
                valueCents := -amountCents, transactionDate := transactionDate,
                balanceAfter := newBalance, idempotencyKey := idempotencyKey }
            let s' := setAccount s accountId { account with balanceCents := newBalance }
            .ok (newBalance, tx.transactionId,
              { s' with transactions := s.transactions ++ [tx],
                        nextTransactionId := s.nextTransactionId + 1 })

/-- Account-creation input (modules/accounts/repository.ts
`CreateAccountInput`). -/
structure CreateAccountInput where
  personId : Nat
  balanceCents : Int
  dailyWithdrawalLimitCents : Int
  activeFlag : Bool
  accountType : Nat
  createDate : Nat
  deriving DecidableEq, Repr

/-- MemoryAccountsRepository.createWithInitialBalance
(memoryAccountsRepo.ts lines 195-232): the opening journal entry is
inserted before the account row becomes visible, and a journal-insert
failure (modelled by `txCreateFails`, as injected by the integrity
test) leaves the account invisible — the catch block deletes the
not-yet-inserted row, so the store is exactly as before. -/
def createWithInitialBalance (s : LedgerState) (input : CreateAccountInput)
    (initialBalanceCents : Int) (transactionDate : Nat) (txCreateFails : Bool) :
    Except Err (Nat × LedgerState) :=
  if !(s.validPersonIds.contains input.personId) then .error .personNotFound
  else
    let accountId := s.nextAccountId
    let account : Account :=
      { personId := input.personId, balanceCents := input.balanceCents,
        dailyWithdrawalLimitCents := input.dailyWithdrawalLimitCents,
        activeFlag := input.activeFlag, accountType := input.accountType,
        createDate := input.createDate }
    if initialBalanceCents > 0 then
      if txCreateFails then .error (.internal ("journal insert failed"))
      else
        let tx : Txn :=
          { transactionId := s.nextTransactionId, accountId := accountId,
            valueCents := initialBalanceCents, transactionDate := transactionDate,
            balanceAfter := initialBalanceCents, idempotencyKey := none }
        .ok (accountId,
          { s with accounts := s.accounts ++ [(accountId, account)],
                   transactions := s.transactions ++ [tx],
                   nextAccountId := s.nextAccountId + 1,
                   nextTransactionId := s.nextTransactionId + 1 })
    else
      .ok (accountId,
        { s with accounts := s.accounts ++ [(accountId, account)],
                 nextAccountId := s.nextAccountId + 1 })

/-- Account-creation request (service.ts `CreateAccountRequest`). -/
structure CreateAccountRequest where
  personId : Nat
  dailyWithdrawalLimitCents : Int
  accountType : Nat
  initialBalanceCents : Option Int
  deriving DecidableEq, Repr

/-- AccountsService.createAccount validation layer (service.ts lines
130-145) on top of the atomic repository creation: reject negative
initial balance, validateCents on the initial balance and the daily
limit, then create the row (with `activeFlag: true`,
`createDate: now`) and, when positive, the opening entry atomically. -/
def createAccount (s : LedgerState) (req : CreateAccountRequest) (now : Nat) :
    Except Err (Nat × LedgerState) :=
  let initialBalanceCents := req.initialBalanceCents.getD 0
  if initialBalanceCents < 0 then
    .error (.invalidAmount ("Initial balance must be non-negative"))
  else if centsInvalid initialBalanceCents then
    .error (.invalidAmount (validateCentsMsg ("Initial balance")))
  else if centsInvalid req.dailyWithdrawalLimitCents then
    .error (.invalidAmount (validateCentsMsg ("Daily limit")))
  else
    createWithInitialBalance s
      { personId := req.personId,
        balanceCents := initialBalanceCents,
        dailyWithdrawalLimitCents := req.dailyWithdrawalLimitCents,
        activeFlag := true, accountType := req.accountType, createDate := now }
      initialBalanceCents now false

/-- AccountsService.deposit input validation (service.ts lines 261-268)
followed by the atomic repository deposit. -/
def deposit (s : LedgerState) (accountId : Nat) (amountCents : Int) (now : Nat)
    (idempotencyKey : Option Nat) : Except Err (Int × Nat × LedgerState) :=
  if amountCents ≤ 0 then .error (.invalidAmount invalidAmountDefaultMsg)
  else if centsInvalid amountCents then
    .error (.invalidAmount (validateCentsMsg ("Amount")))
  else atomicDeposit s accountId amountCents now idempotencyKey

/-- AccountsService.withdraw input validation (service.ts lines
357-364) followed by the atomic repository withdrawal; `today` is the
UTC day of the injected clock (`this.now().toISOString().slice(0, 10)`).
The repository ignores its `dailyWithdrawalLimit` argument, so `0` is
passed here. -/
def withdraw (s : LedgerState) (accountId : Nat) (amountCents : Int) (now : Nat)
    (idempotencyKey : Option Nat) : Except Err (Int × Nat × LedgerState) :=
  if amountCents ≤ 0 then .error (.invalidAmount invalidAmountDefaultMsg)
  else if centsInvalid amountCents then
    .error (.invalidAmount (validateCentsMsg ("Amount")))
  else atomicWithdraw s accountId amountCents 0 now (dayOf now) idempotencyKey

/-- The older in-tree AccountsService.withdraw memory path (service.ts
lines 451-490): same guard order, but the InsufficientFunds message
interpolates the exact deficit ("short by N cents", lines 458-463).
Its journal row predates `balanceAfter`/`idempotencyKey`; the entry is
recorded here with the post-entry balance snapshot and no key. -/
def legacyWithdraw (s : LedgerState) (accountId : Nat) (amountCents : Int)
    (now : Nat) : Except Err (Int × Nat × LedgerState) :=
  if amountCents ≤ 0 then .error (.invalidAmount invalidAmountDefaultMsg)
  else if centsInvalid amountCents then
    .error (.invalidAmount (validateCentsMsg ("Amount")))
  else
    match getById s accountId with
    | none => .error .notFound
    | some account =>
      if !account.activeFlag then .error .accountBlocked
      else if account.balanceCents < amountCents then
        .error (.insufficientFunds
          (("Insufficient funds: short by ") ++
            (amountCents - account.balanceCents).natAbs.repr ++ (" cents")))
      else
        let withdrawals := sumWithdrawalsForDay s.transactions accountId (dayOf now)
        if withdrawals + amountCents > account.dailyWithdrawalLimitCents then
          .error .dailyLimitExceeded
        else
          let newBalance := account.balanceCents - amountCents
          let tx : Txn :=
            { transactionId := s.nextTransactionId, accountId := accountId,
              valueCents := -amountCents, transactionDate := now,
              balanceAfter := newBalance, idempotencyKey := none }
          .ok (newBalance, tx.transactionId,
            { (setAccount s accountId { account with balanceCents := newBalance }) with
                transactions := s.transactions ++ [tx],
                nextTransactionId := s.nextTransactionId + 1 })

/-- MemoryAccountsRepository.setActiveFlag (memoryAccountsRepo.ts lines
46-54); the postgres analogue is the guarded UPDATE at
postgresAccountsRepo.ts lines 133-157. -/
def setActiveFlag (s : LedgerState) (accountId : Nat) (activeFlag : Bool) :
    Except Err (Account × LedgerState) :=
  match getById s accountId with
  | none => .error .notFound
  | some account =>
    let updated : Account := { account with activeFlag := activeFlag }
    .ok (updated, setAccount s accountId updated)

/-- AccountsService.blockAccount (service.ts lines 235-246). -/
def blockAccount (s : LedgerState) (accountId : Nat) :
    Except Err (Account × LedgerState) :=
  match getById s accountId with
  | none => .error .notFound
  | some account =>
    if !account.activeFlag then .error .alreadyBlocked
    else setActiveFlag s accountId false

/-- AccountsService.unblockAccount (service.ts lines 248-259). -/
def unblockAccount (s : LedgerState) (accountId : Nat) :
    Except Err (Account × LedgerState) :=
  match getById s accountId with
  | none => .error .notFound
  | some account =>
    if account.activeFlag then .error .alreadyUnblocked
    else setActiveFlag s accountId true

/-- One committed core operation on the ledger. -/
inductive Op where
  | create (req : CreateAccountRequest) (now : Nat)
  | depositOp (accountId : Nat) (amountCents : Int) (now : Nat) (key : Option Nat)
  | withdrawOp (accountId : Nat) (amountCents : Int) (now : Nat) (key : Option Nat)
  | blockOp (accountId : Nat)
  | unblockOp (accountId : Nat)
  deriving DecidableEq, Repr

/-- Effect of one operation: a failed operation rolls back, leaving the
ledger unchanged. -/
def step (s : LedgerState) : Op → LedgerState
  | .create req now =>
    match createAccount s req now with
    | .ok r => r.2
    | .error _ => s
  | .depositOp a amt now k =>
    match deposit s a amt now k with
    | .ok r => r.2.2
    | .error _ => s
  | .withdrawOp a amt now k =>
    match withdraw s a amt now k with
    | .ok r => r.2.2
    | .error _ => s
  | .blockOp a =>
    match blockAccount s a with
    | .ok r => r.2
    | .error _ => s
  | .unblockOp a =>
    match unblockAccount s a with
    | .ok r => r.2
    | .error _ => s

/-- Empty ledger with a given set of valid person ids. -/
def initState (validPersonIds : List Nat) : LedgerState :=
  { accounts := [], transactions := [], nextAccountId := 0,
    nextTransactionId := 0, validPersonIds := validPersonIds }

/-- Ledger produced by a finite sequence of committed core operations. -/
def runOps (validPersonIds : List Nat) (ops : List Op) : LedgerState :=
  ops.foldl step (initState validPersonIds)

/-!
Retry policy (postgresAccountsRepo.ts lines 31-63): `withRetry` wraps a
mutation attempt; Postgres contention codes classify as retryable; the
wait before retry number `attemptNum + 1` is
`RETRY_BASE_DELAY_MS * 2 ^ attemptNum + Math.random() * RETRY_BASE_DELAY_MS`.
The recursion below carries `remaining = MAX_RETRIES - attemptNum`,
so the source guard `attemptNum < MAX_RETRIES` becomes
`remaining > 0`; `jitter n` is the sampled `Math.random() * base` of
attempt `n`, and `script n` is the outcome the backend yields for
attempt number `n`.
-/

/-- Outcome of one backend attempt inside the retry wrapper. -/
inductive AttemptOutcome where
  | success
  | failure (code : String)
  deriving DecidableEq, Repr

/-- PostgresAccountsRepository.isRetryableError (lines 31-37):
serialization_failure, deadlock_detected, lock_not_available. -/
def isRetryableError (code : String) : Bool :=
  code == ("40001") || code == ("40P01") || code == ("55P03")

/-- Trace of one `withRetry` run: whether it succeeded, the surfaced
error code on failure, the number of attempts executed, and the list
of backoff waits performed between attempts. -/
structure RetryRun where
  succeeded : Bool
  failCode : Option String
  tries : Nat
  delays : List Nat
  deriving DecidableEq, Repr

/-- PostgresAccountsRepository.withRetry (lines 43-63), unrolled from
attempt number `attemptNum` with `remaining = MAX_RETRIES - attemptNum`
retries still allowed; the source guard
`attemptNum < MAX_RETRIES && isRetryableError(error)` is split on
whether any retries remain. -/
def withRetryFrom (baseDelay : Nat) (jitter : Nat → Nat)
    (script : Nat → AttemptOutcome) : Nat → Nat → RetryRun
  | attemptNum, 0 =>
    match script attemptNum with
    | .success => { succeeded := true, failCode := none, tries := 1, delays := [] }
    | .failure code =>
      { succeeded := false, failCode := some code, tries := 1, delays := [] }
  | attemptNum, remaining + 1 =>
    match script attemptNum with
    | .success => { succeeded := true, failCode := none, tries := 1, delays := [] }
    | .failure code =>
      if isRetryableError code then
        let rest := withRetryFrom baseDelay jitter script (attemptNum + 1) remaining
        { succeeded := rest.succeeded, failCode := rest.failCode,
          tries := rest.tries + 1,
          delays := (baseDelay * 2 ^ attemptNum + jitter attemptNum) :: rest.delays }
      else { succeeded := false, failCode := some code, tries := 1, delays := [] }

/-- Whole `withRetry` run starting at attempt 0 with `maxRetries =
config.RETRY_MAX_ATTEMPTS` retries allowed. -/
def withRetry (maxRetries baseDelay : Nat) (jitter : Nat → Nat)
    (script : Nat → AttemptOutcome) : RetryRun :=
  withRetryFrom baseDelay jitter script 0 maxRetries

/-- Stable machine-readable codes of the domain errors (common/errors.ts),
the 4xx-equivalent failures the retry policy must never retry. -/
def domainErrorCodes : List String :=
  [("NOT_FOUND"), ("PERSON_NOT_FOUND"), ("ACCOUNT_BLOCKED"), ("ALREADY_BLOCKED"),
   ("ALREADY_UNBLOCKED"), ("INVALID_AMOUNT"), ("INSUFFICIENT_FUNDS"),
   ("DAILY_LIMIT_EXCEEDED")]

/-!
Per-key serialization gate (infra/memory/mutex.ts).  `lock()` resolves
immediately when the mutex is free and otherwise appends the caller to
the FIFO wait queue; the release closure hands the mutex to the queue
head, or clears `locked` when nobody waits.  The ghost `holders` list
tracks the execution contexts whose lock promise has resolved and whose
release has not yet run — the JS event loop runs each of these
operations atomically, so a sequential step relation is faithful.
-/

/-- State of one `Mutex`: the `locked` flag and the FIFO `queue` from
the source, plus the ghost list of current lock holders. -/
structure MutexState where
  locked : Bool
  holders : List Nat
  queue : List Nat
  deriving DecidableEq, Repr

/-- Mutex.isLocked (mutex.ts lines 5-7): `locked || queue.length > 0`. -/
def isLocked (m : MutexState) : Bool := m.locked || decide (m.queue.length > 0)

/-- Mutex.lock (mutex.ts lines 9-27) as seen by caller `w`: enqueue
when held, otherwise take the mutex at once. -/
def lockAcquire (m : MutexState) (w : Nat) : MutexState :=
  if m.locked then { m with queue := m.queue ++ [w] }
  else { m with locked := true, holders := m.holders ++ [w] }

/-- The release closure (mutex.ts lines 11-18) invoked by `caller`:
wake the queue head (the lock transfers to it, `locked` stays true), or
clear `locked` when the queue is empty.  Returns the woken waiter. -/
def releaseLock (m : MutexState) (caller : Nat) : MutexState × Option Nat :=
  match m.queue with
  | next :: rest =>
    ({ m with holders := (m.holders.erase caller) ++ [next], queue := rest }, some next)
  | [] => ({ m with locked := false, holders := m.holders.erase caller }, none)

/-- One scheduler event on a mutex: a new caller invoking `lock()`, or
the current holder invoking its release closure (only a holder owns a
live release handle, so a release with no holder is a no-op). -/
inductive MEvent where
  | acquire (w : Nat)
  | release
  deriving DecidableEq, Repr

/-- Effect of one mutex event. -/
def mstep (m : MutexState) : MEvent → MutexState
  | .acquire w => lockAcquire m w
  | .release =>
    match m.holders with
    | c :: _ => (releaseLock m c).1
    | [] => m

/-- A fresh `new Mutex()`. -/
def minit : MutexState := { locked := false, holders := [], queue := [] }

/-- Mutex state after a finite event sequence. -/
def mrun (events : List MEvent) : MutexState := events.foldl mstep minit

/-- Waiters woken by `k` successive invocations of the release handle,
in order. -/
def releasesGrant (m : MutexState) : Nat → List Nat
  | 0 => []
  | k + 1 =>
    match m.holders with
    | c :: _ =>
      let r := releaseLock m c
      r.2.toList ++ releasesGrant r.1 k
    | [] => []

/-- MutexMap idle-eviction TTL, 5 minutes (mutex.ts line 33). -/
def TTL_MS : Nat := 300000

/-- One entry of the MutexMap: the mutex and its `lastUsed` stamp. -/
structure MutexEntry where
  mutex : MutexState
  lastUsed : Nat
  deriving DecidableEq, Repr

/-- MutexMap.cleanup (mutex.ts lines 56-74): evict entries idle longer
than the TTL whose mutex reports unlocked.  The source's two passes
run back-to-back inside one synchronous call, so they amount to this
single filter. -/
def cleanup (map : List (Nat × MutexEntry)) (now : Nat) : List (Nat × MutexEntry) :=
  map.filter (fun p => !(decide (now - p.2.lastUsed > TTL_MS) && !isLocked p.2.mutex))

/-!
Helper lemmas about the ledger structures.
-/

theorem txSumL_append (l : List Txn) (t : Txn) (i : Nat) :
    txSumL (l ++ [t]) i = txSumL l i + (if t.accountId = i then t.valueCents else 0) := by
  unfold txSumL
  rw [List.filter_append, List.map_append, List.sum_append]
  by_cases h : t.accountId = i
  · simp [h]
  · simp [h]

theorem txSumL_eq_zero (l : List Txn) (i : Nat) (h : ∀ t ∈ l, t.accountId ≠ i) :
    txSumL l i = 0 := by
  unfold txSumL
  have : l.filter (fun t => t.accountId == i) = [] := by
    apply List.filter_eq_nil_iff.mpr
    intro t ht
    simpa using h t ht
  simp [this]

theorem getById_mem {s : LedgerState} {i : Nat} {a : Account}
    (h : getById s i = some a) : (i, a) ∈ s.accounts := by
  unfold getById at h
  cases hf : s.accounts.find? (fun p => p.1 == i) with
  | none => rw [hf] at h; simp at h
  | some p =>
    rw [hf] at h
    simp at h
    have hp := List.find?_some hf
    have hm : p ∈ s.accounts := List.mem_of_find?_eq_some hf
    have h1 : p.1 = i := by simpa using hp
    have h2 : p.2 = a := by simpa using h
    have : p = (i, a) := Prod.ext h1 h2
    rwa [this] at hm

theorem find?_key_eq_of_mem_nodup {l : List (Nat × Account)} {i : Nat} {a : Account}
    (hnd : (l.map Prod.fst).Nodup) (hm : (i, a) ∈ l) :
    l.find? (fun p => p.1 == i) = some (i, a) := by
  induction l with
  | nil => simp at hm
  | cons hd tl ih =>
    rcases List.mem_cons.mp hm with heq | htl
    · subst heq
      exact List.find?_cons_of_pos _ (by simp)
    · have hkey : i ∈ tl.map Prod.fst := by
        exact List.mem_map.mpr ⟨(i, a), htl, rfl⟩
      have hne : hd.1 ≠ i := by
        intro he
        have : hd.1 ∉ tl.map Prod.fst := (List.nodup_cons.mp (by simpa using hnd)).1
        exact this (he ▸ hkey)
      rw [List.find?_cons]
      have : (hd.1 == i) = false := by simpa using hne
      rw [this]
      exact ih (List.nodup_cons.mp (by simpa using hnd)).2 htl

theorem getById_eq_of_mem_nodup {s : LedgerState} {i : Nat} {a : Account}
    (hnd : (s.accounts.map Prod.fst).Nodup) (hm : (i, a) ∈ s.accounts) :
    getById s i = some a := by
  unfold getById
  rw [find?_key_eq_of_mem_nodup hnd hm]
  rfl

theorem setAccount_keys (s : LedgerState) (i : Nat) (a : Account) :
    (setAccount s i a).accounts.map Prod.fst = s.accounts.map Prod.fst := by
  unfold setAccount
  simp only [List.map_map]
  apply List.map_congr_left
  intro p _
  by_cases h : p.1 = i
  · simp [h]
  · simp [h]

theorem setAccount_transactions (s : LedgerState) (i : Nat) (a : Account) :
    (setAccount s i a).transactions = s.transactions := rfl

theorem setAccount_nextAccountId (s : LedgerState) (i : Nat) (a : Account) :
    (setAccount s i a).nextAccountId = s.nextAccountId := rfl

theorem mem_setAccount {s : LedgerState} {i : Nat} {a : Account} {p : Nat × Account}
    (hp : p ∈ (setAccount s i a).accounts) :
    (p.1 = i ∧ p.2 = a ∧ ∃ b, (i, b) ∈ s.accounts) ∨ (p.1 ≠ i ∧ p ∈ s.accounts) := by
  unfold setAccount at hp
  simp only [List.mem_map] at hp
  obtain ⟨q, hq, hfq⟩ := hp
  by_cases h : q.1 = i
  · left
    have hb : (q.1 == i) = true := by simpa using h
    rw [hb] at hfq
    simp at hfq
    refine ⟨?_, ?_, q.2, ?_⟩
    · rw [← hfq]; exact h
    · rw [← hfq]
    · have hq2 : q = (i, q.2) := Prod.ext h rfl
      rwa [hq2] at hq
  · right
    have : (q.1 == i) = false := by simpa using h
    rw [this] at hfq
    simp at hfq
    subst hfq
    exact ⟨h, hq⟩

theorem find?_setKey_self (l : List (Nat × Account)) (i : Nat) (a : Account) :
    (l.map (fun p => if p.1 == i then (p.1, a) else p)).find? (fun p => p.1 == i) =
      (l.find? (fun p => p.1 == i)).map (fun p => (p.1, a)) := by
  induction l with
  | nil => simp
  | cons hd tl ih =>
    by_cases h : hd.1 = i
    · simp [List.find?_cons, h, -List.find?_map]
    · simp [List.find?_cons, h, -List.find?_map] at ih ⊢
      exact ih

theorem find?_setKey_ne (l : List (Nat × Account)) (i j : Nat) (a : Account)
    (hne : j ≠ i) :
    (l.map (fun p => if p.1 == i then (p.1, a) else p)).find? (fun p => p.1 == j) =
      l.find? (fun p => p.1 == j) := by
  have hij : (i == j) = false := by simpa using Ne.symm hne
  induction l with
  | nil => simp
  | cons hd tl ih =>
    by_cases h : hd.1 = i
    · simp [List.find?_cons, h, hij, -List.find?_map] at ih ⊢
      exact ih
    · by_cases hj : hd.1 = j
      · simp [List.find?_cons, h, hj, hne, -List.find?_map]
      · simp [List.find?_cons, h, hj, -List.find?_map] at ih ⊢
        exact ih

theorem getById_setAccount (s : LedgerState) (i j : Nat) (a : Account) :
    getById (setAccount s i a) j =
      if j = i then (getById s i).map (fun _ => a) else getById s j := by
  unfold getById setAccount
  by_cases h : j = i
  · subst h
    simp only [if_pos rfl]
    rw [find?_setKey_self]
    cases s.accounts.find? (fun p : Nat × Account => p.1 == j) with
    | none => rfl
    | some q => rfl
  · simp only [if_neg h]
    rw [find?_setKey_ne _ _ _ _ h]

/-- Reachable-ledger invariant: account keys are fresh-bounded and
unique, journal entries reference allocated accounts, and every
account's balance is within `[0, maxSafeInteger]` and equals the net
sum of its journal entries. -/
def LedgerInv (s : LedgerState) : Prop :=
  (∀ p ∈ s.accounts, p.1 < s.nextAccountId) ∧
  (∀ t ∈ s.transactions, t.accountId < s.nextAccountId) ∧
  (s.accounts.map Prod.fst).Nodup ∧
  (∀ p ∈ s.accounts, 0 ≤ p.2.balanceCents ∧ p.2.balanceCents ≤ maxSafeInteger ∧
    p.2.balanceCents = txSumL s.transactions p.1)

theorem LedgerInv_init (vps : List Nat) : LedgerInv (initState vps) := by
  refine ⟨?_, ?_, ?_, ?_⟩ <;> simp [initState]

theorem LedgerInv_commit {s : LedgerState} {a : Nat} {acct : Account} {v : Int} {tx : Txn}
    (hInv : LedgerInv s) (hget : getById s a = some acct)
    (htxa : tx.accountId = a) (htxv : tx.valueCents = v)
    (h0 : 0 ≤ acct.balanceCents + v) (hM : acct.balanceCents + v ≤ maxSafeInteger)
    (m : Nat) :
    LedgerInv { setAccount s a { acct with balanceCents := acct.balanceCents + v } with
          transactions := s.transactions ++ [tx], nextTransactionId := m } := by
  obtain ⟨hKeys, hTx, hNodup, hBal⟩ := hInv
  have hmemA : (a, acct) ∈ s.accounts := getById_mem hget
  have haLt : a < s.nextAccountId := hKeys (a, acct) hmemA
  have hBalA := hBal (a, acct) hmemA
  refine ⟨?_, ?_, ?_, ?_⟩
  · intro p hp
    have h1 : p.1 ∈ (setAccount s a { acct with balanceCents := acct.balanceCents + v }).accounts.map Prod.fst :=
      List.mem_map_of_mem _ hp
    rw [setAccount_keys] at h1
    obtain ⟨q, hq, hq1⟩ := List.mem_map.mp h1
    exact hq1 ▸ hKeys q hq
  · intro t ht
    rcases List.mem_append.mp ht with hold | hnew
    · exact hTx t hold
    · have : t = tx := by simpa using hnew
      rw [this, htxa]
      exact haLt
  · rw [setAccount_keys]
    exact hNodup
  · intro p hp
    rcases mem_setAccount hp with ⟨hp1, hp2, _⟩ | ⟨hpne, hpmem⟩
    · rw [hp2]
      refine ⟨h0, hM, ?_⟩
      rw [hp1, txSumL_append, if_pos htxa, htxv, ← hBalA.2.2]
    · have hb := hBal p hpmem
      refine ⟨hb.1, hb.2.1, ?_⟩
      rw [txSumL_append]
      have : ¬ (tx.accountId = p.1) := by rw [htxa]; exact fun he => hpne he.symm
      rw [if_neg this, add_zero]
      exact hb.2.2

theorem MAX_CENTS_le_maxSafe : MAX_CENTS ≤ maxSafeInteger := by decide

theorem valid_le_MAX_CENTS {v : Int} (h : centsInvalid v = false) : v ≤ MAX_CENTS := by
  unfold centsInvalid at h
  simp at h
  exact h.2

theorem LedgerInv_deposit {s : LedgerState} {a : Nat} {amt : Int} {now : Nat}
    {k : Option Nat} {r : Int × Nat × LedgerState}
    (hInv : LedgerInv s) (h : deposit s a amt now k = .ok r) : LedgerInv r.2.2 := by
  unfold deposit at h
  split at h
  · simp at h
  · split at h
    · simp at h
    · rename_i hpos _
      unfold atomicDeposit at h
      split at h
      · split at h
        · simp only [Except.ok.injEq] at h
          subst h
          exact hInv
        · simp at h
      · split at h
        · simp at h
        · rename_i hget
          split at h
          · simp at h
          · simp only at h
            split at h
            · simp at h
            · rename_i hact hover
              simp only [Except.ok.injEq] at h
              subst h
              have hmem : (a, _) ∈ s.accounts := getById_mem hget
              have hb := hInv.2.2.2 _ hmem
              apply LedgerInv_commit hInv hget
              · rfl
              · rfl
              · have h1 : (0 : Int) < amt := lt_of_not_ge hpos
                have h2 := hb.1
                simp only at h2 ⊢
                omega
              · exact le_of_not_lt hover

theorem LedgerInv_withdraw {s : LedgerState} {a : Nat} {amt : Int} {now : Nat}
    {k : Option Nat} {r : Int × Nat × LedgerState}
    (hInv : LedgerInv s) (h : withdraw s a amt now k = .ok r) : LedgerInv r.2.2 := by
  unfold withdraw at h
  split at h
  · simp at h
  · split at h
    · simp at h
    · rename_i hpos _
      unfold atomicWithdraw at h
      split at h
      · split at h
        · simp only [Except.ok.injEq] at h
          subst h
          exact hInv
        · simp at h
      · split at h
        · simp at h
        · rename_i hget
          split at h
          · simp at h
          · split at h
            · simp at h
            · rename_i hact hfunds
              simp only at h
              split at h
              · simp at h
              · split at h
                · simp at h
                · rename_i hlimit hneg
                  simp only [Except.ok.injEq] at h
                  subst h
                  have hmem : (a, _) ∈ s.accounts := getById_mem hget
                  have hb := hInv.2.2.2 _ hmem
                  simp only [sub_eq_add_neg]
                  apply LedgerInv_commit hInv hget
                  · rfl
                  · rfl
                  · have h1 := lt_of_not_ge hpos
                    omega
                  · have h1 := hb.2.1
                    have h2 : (0 : Int) < amt := lt_of_not_ge hpos
                    simp only at h1
                    omega

theorem LedgerInv_createWIB {s : LedgerState} {input : CreateAccountInput}
    {initial : Int} {date : Nat} {tf : Bool} {r : Nat × LedgerState}
    (hInv : LedgerInv s) (h0 : 0 ≤ initial) (hM : initial ≤ maxSafeInteger)
    (hbal : input.balanceCents = initial)
    (h : createWithInitialBalance s input initial date tf = .ok r) :
    LedgerInv r.2 := by
  obtain ⟨hKeys, hTx, hNodup, hBal⟩ := hInv
  have hfreshKey : ∀ p ∈ s.accounts, p.1 ≠ s.nextAccountId := by
    intro p hp he
    exact absurd (he ▸ hKeys p hp) (lt_irrefl _)
  have hfreshTx : ∀ t ∈ s.transactions, t.accountId ≠ s.nextAccountId := by
    intro t ht he
    exact absurd (he ▸ hTx t ht) (lt_irrefl _)
  unfold createWithInitialBalance at h
  split at h
  · simp at h
  · split at h
    · split at h
      · simp at h
      · rename_i hgt _
        simp only [Except.ok.injEq] at h
        subst h
        refine ⟨?_, ?_, ?_, ?_⟩
        · intro p hp
          rcases List.mem_append.mp hp with hold | hnew
          · exact Nat.lt_succ_of_lt (hKeys p hold)
          · have hp2 := List.mem_singleton.mp hnew
            rw [hp2]
            exact Nat.lt_succ_self _
        · intro t ht
          rcases List.mem_append.mp ht with hold | hnew
          · exact Nat.lt_succ_of_lt (hTx t hold)
          · have ht2 := List.mem_singleton.mp hnew
            rw [ht2]
            exact Nat.lt_succ_self _
        · simp only [List.map_append]
          rw [List.nodup_append]
          refine ⟨hNodup, by simp, ?_⟩
          intro x hx hxmem
          have hxn : x = s.nextAccountId := by simpa using hxmem
          obtain ⟨q, hq, hq1⟩ := List.mem_map.mp hx
          exact hfreshKey q hq (hq1.trans hxn)
        · intro p hp
          rcases List.mem_append.mp hp with hold | hnew
          · have hb := hBal p hold
            refine ⟨hb.1, hb.2.1, ?_⟩
            rw [txSumL_append, if_neg (fun he => hfreshKey p hold (by simp at he; omega)), add_zero]
            exact hb.2.2
          · have hp2 := List.mem_singleton.mp hnew
            rw [hp2]
            refine ⟨by simpa [hbal] using h0, by simpa [hbal] using hM, ?_⟩
            rw [txSumL_append, txSumL_eq_zero _ _ hfreshTx]
            simp [hbal]
    · simp only [Except.ok.injEq] at h
      subst h
      rename_i hle
      have hz : initial = 0 := by
        have := not_lt.mp hle
        omega
      refine ⟨?_, ?_, ?_, ?_⟩
      · intro p hp
        rcases List.mem_append.mp hp with hold | hnew
        · exact Nat.lt_succ_of_lt (hKeys p hold)
        · have hp2 := List.mem_singleton.mp hnew
          rw [hp2]
          exact Nat.lt_succ_self _
      · intro t ht
        exact Nat.lt_succ_of_lt (hTx t ht)
      · simp only [List.map_append]
        rw [List.nodup_append]
        refine ⟨hNodup, by simp, ?_⟩
        intro x hx hxmem
        have hxn : x = s.nextAccountId := by simpa using hxmem
        obtain ⟨q, hq, hq1⟩ := List.mem_map.mp hx
        exact hfreshKey q hq (hq1.trans hxn)
      · intro p hp
        rcases List.mem_append.mp hp with hold | hnew
        · exact hBal p hold
        · have hp2 := List.mem_singleton.mp hnew
          rw [hp2]
          refine ⟨by simpa [hbal] using h0, by simpa [hbal] using hM, ?_⟩
          rw [txSumL_eq_zero _ _ hfreshTx]
          simp [hbal, hz]

theorem LedgerInv_createAccount {s : LedgerState} {req : CreateAccountRequest}
    {now : Nat} {r : Nat × LedgerState}
    (hInv : LedgerInv s) (h : createAccount s req now = .ok r) : LedgerInv r.2 := by
  unfold createAccount at h
  simp only at h
  by_cases h1 : req.initialBalanceCents.getD 0 < 0
  · rw [if_pos h1] at h
    simp at h
  · rw [if_neg h1] at h
    by_cases h2 : centsInvalid (req.initialBalanceCents.getD 0) = true
    · rw [if_pos h2] at h
      simp at h
    · rw [if_neg h2] at h
      by_cases h3 : centsInvalid req.dailyWithdrawalLimitCents = true
      · rw [if_pos h3] at h
        simp at h
      · rw [if_neg h3] at h
        refine LedgerInv_createWIB hInv (le_of_not_lt h1) ?_ rfl h
        exact le_trans (valid_le_MAX_CENTS (by simpa using h2)) MAX_CENTS_le_maxSafe

theorem LedgerInv_setActiveFlag {s : LedgerState} {a : Nat} {flag : Bool}
    {r : Account × LedgerState}
    (hInv : LedgerInv s) (h : setActiveFlag s a flag = .ok r) : LedgerInv r.2 := by
  obtain ⟨hKeys, hTx, hNodup, hBal⟩ := hInv
  unfold setActiveFlag at h
  split at h
  · simp at h
  · rename_i acct hget
    simp only [Except.ok.injEq] at h
    subst h
    have hmem : (a, acct) ∈ s.accounts := getById_mem hget
    refine ⟨?_, hTx, ?_, ?_⟩
    · intro p hp
      have h1 : p.1 ∈ (setAccount s a { acct with activeFlag := flag }).accounts.map Prod.fst :=
        List.mem_map_of_mem _ hp
      rw [setAccount_keys] at h1
      obtain ⟨q, hq, hq1⟩ := List.mem_map.mp h1
      exact hq1 ▸ hKeys q hq
    · rw [setAccount_keys]
      exact hNodup
    · intro p hp
      rcases mem_setAccount hp with ⟨hp1, hp2, _⟩ | ⟨hpne, hpmem⟩
      · have hb := hBal (a, acct) hmem
        rw [hp2, hp1]
        exact hb
      · exact hBal p hpmem

theorem LedgerInv_block {s : LedgerState} {a : Nat} {r : Account × LedgerState}
    (hInv : LedgerInv s) (h : blockAccount s a = .ok r) : LedgerInv r.2 := by
  unfold blockAccount at h
  split at h
  · simp at h
  · split at h
    · simp at h
    · exact LedgerInv_setActiveFlag hInv h

theorem LedgerInv_unblock {s : LedgerState} {a : Nat} {r : Account × LedgerState}
    (hInv : LedgerInv s) (h : unblockAccount s a = .ok r) : LedgerInv r.2 := by
  unfold unblockAccount at h
  split at h
  · simp at h
  · split at h
    · simp at h
    · exact LedgerInv_setActiveFlag hInv h

theorem LedgerInv_step {s : LedgerState} (op : Op) (hInv : LedgerInv s) :
    LedgerInv (step s op) := by
  cases op with
  | create req now =>
    simp only [step]
    cases hc : createAccount s req now with
    | ok r => exact LedgerInv_createAccount hInv hc
    | error e => exact hInv
  | depositOp a amt now k =>
    simp only [step]
    cases hc : deposit s a amt now k with
    | ok r => exact LedgerInv_deposit hInv hc
    | error e => exact hInv
  | withdrawOp a amt now k =>
    simp only [step]
    cases hc : withdraw s a amt now k with
    | ok r => exact LedgerInv_withdraw hInv hc
    | error e => exact hInv
  | blockOp a =>
    simp only [step]
    cases hc : blockAccount s a with
    | ok r => exact LedgerInv_block hInv hc
    | error e => exact hInv
  | unblockOp a =>
    simp only [step]
    cases hc : unblockAccount s a with
    | ok r => exact LedgerInv_unblock hInv hc
    | error e => exact hInv

theorem LedgerInv_foldl {s : LedgerState} (ops : List Op) (hInv : LedgerInv s) :
    LedgerInv (ops.foldl step s) := by
  induction ops generalizing s with
  | nil => exact hInv
  | cons op rest ih => exact ih (LedgerInv_step op hInv)

theorem LedgerInv_runOps (vps : List Nat) (ops : List Op) :
    LedgerInv (runOps vps ops) :=
  LedgerInv_foldl ops (LedgerInv_init vps)

/-!
Sample concrete inputs used by the witness theorems.
-/

/-- Sample creation request: person 1, daily limit 100000, opening
balance 5000. -/
def sampleReq : CreateAccountRequest :=
  { personId := 1, dailyWithdrawalLimitCents := 100000, accountType := 0,
    initialBalanceCents := some 5000 }

/-- Sample committed operation sequence: create, deposit 1000,
withdraw 300. -/
def sampleOps : List Op :=
  [.create sampleReq 0, .depositOp 0 1000 1000 none, .withdrawOp 0 300 2000 none]

/-- Sample open account with balance 5000 and daily limit 1000. -/
def wAcct : Account :=
  { personId := 1, balanceCents := 5000, dailyWithdrawalLimitCents := 1000,
    activeFlag := true, accountType := 0, createDate := 0 }

/-- Ledger holding only `wAcct` under account id 0. -/
def wState : LedgerState :=
  { accounts := [(0, wAcct)], transactions := [], nextAccountId := 1,
    nextTransactionId := 0, validPersonIds := [1] }

/-- Sample blocked account. -/
def wBlockedAcct : Account :=
  { personId := 1, balanceCents := 5000, dailyWithdrawalLimitCents := 1000,
    activeFlag := false, accountType := 0, createDate := 0 }

/-- Ledger holding only the blocked account under account id 0. -/
def wBlockedState : LedgerState :=
  { accounts := [(0, wBlockedAcct)], transactions := [], nextAccountId := 1,
    nextTransactionId := 0, validPersonIds := [1] }

/-- Sample account with balance 100, used for insufficient-funds runs. -/
def lowAcct : Account :=
  { personId := 1, balanceCents := 100, dailyWithdrawalLimitCents := 100000,
    activeFlag := true, accountType := 0, createDate := 0 }

/-- Ledger holding only `lowAcct` under account id 0. -/
def lowState : LedgerState :=
  { accounts := [(0, lowAcct)], transactions := [], nextAccountId := 1,
    nextTransactionId := 0, validPersonIds := [1] }

/-- C1: for every account and every finite sequence of committed core
operations (create with optional initial balance, deposit, withdraw —
block/unblock included for completeness), the account's balance equals
the net sum of `valueCents` over its committed journal entries.  The
opening balance is itself journaled as the account's first transaction
(memoryAccountsRepo.ts lines 215-222), so the balance prior to any
journal entry is 0 and this sum is exactly `initialBalance +
Σ valueCents` in the spec's decomposition. -/
theorem balance_integrity (vps : List Nat) (ops : List Op) (p : Nat × Account)
    (hp : p ∈ (runOps vps ops).accounts) :
    p.2.balanceCents = txSumL (runOps vps ops).transactions p.1 :=
  ((LedgerInv_runOps vps ops).2.2.2 p hp).2.2

/-- Final account row produced by `sampleOps`. -/
def sampleFinalAcct : Account :=
  { personId := 1, balanceCents := 5700, dailyWithdrawalLimitCents := 100000,
    activeFlag := true, accountType := 0, createDate := 0 }

/-- Witness for C1: after create(5000), deposit(1000), withdraw(300)
the account holds 5700 = 5000 + 1000 - 300, the sum of its journal. -/
theorem balance_integrity_witness :
    (0, sampleFinalAcct) ∈ (runOps [1] sampleOps).accounts ∧
    sampleFinalAcct.balanceCents = txSumL (runOps [1] sampleOps).transactions 0 :=
  ⟨by decide, balance_integrity [1] sampleOps (0, sampleFinalAcct) (by decide)⟩

/-- C2: every core operation preserves `0 ≤ balanceCents ≤
maxSafeInteger` (the maximum safe value used by the overflow guard),
and a deposit whose `newBalance = balance + amountCents` would exceed
that bound fails with InvalidAmount ("overflow") leaving the account —
indeed the whole ledger — unchanged. -/
theorem balance_bounds_and_deposit_overflow :
    (∀ (vps : List Nat) (ops : List Op) (p : Nat × Account),
        p ∈ (runOps vps ops).accounts →
        0 ≤ p.2.balanceCents ∧ p.2.balanceCents ≤ maxSafeInteger) ∧
    (∀ (s : LedgerState) (a : Nat) (acct : Account) (amt : Int) (now : Nat)
        (k : Option Nat),
        getById s a = some acct → acct.activeFlag = true →
        k.bind (findByIdempotencyKey s.transactions) = none →
        0 < amt → centsInvalid amt = false →
        maxSafeInteger < acct.balanceCents + amt →
        deposit s a amt now k = .error (.invalidAmount overflowMsg) ∧
        step s (.depositOp a amt now k) = s) := by
  constructor
  · intro vps ops p hp
    have h := (LedgerInv_runOps vps ops).2.2.2 p hp
    exact ⟨h.1, h.2.1⟩
  · intro s a acct amt now k hget hact hk hpos hcv hover
    have hd : deposit s a amt now k = .error (.invalidAmount overflowMsg) := by
      unfold deposit atomicDeposit
      rw [if_neg (not_le.mpr hpos), if_neg (by simp [hcv]), hk, hget]
      simp [hact, hover]
    refine ⟨hd, ?_⟩
    simp only [step, hd]

/-- Account sitting exactly at the safe bound. -/
def bigAcct : Account :=
  { personId := 1, balanceCents := 9007199254740991, dailyWithdrawalLimitCents := 1000,
    activeFlag := true, accountType := 0, createDate := 0 }

/-- Ledger holding only `bigAcct` under account id 0. -/
def bigState : LedgerState :=
  { accounts := [(0, bigAcct)], transactions := [], nextAccountId := 1,
    nextTransactionId := 0, validPersonIds := [1] }

/-- Witness for C2: the sample run's account stays within bounds, and a
1-cent deposit on an account at the safe bound fails with the overflow
InvalidAmount, leaving the ledger unchanged. -/
theorem balance_bounds_and_deposit_overflow_witness :
    (0 ≤ sampleFinalAcct.balanceCents ∧ sampleFinalAcct.balanceCents ≤ maxSafeInteger) ∧
    deposit bigState 0 1 0 none = .error (.invalidAmount overflowMsg) ∧
    step bigState (.depositOp 0 1 0 none) = bigState :=
  ⟨balance_bounds_and_deposit_overflow.1 [1] sampleOps (0, sampleFinalAcct) (by decide),
   balance_bounds_and_deposit_overflow.2 bigState 0 bigAcct 1 0 none
     (by decide) (by decide) (by decide) (by decide) (by decide) (by decide)⟩

/-- Successful-path equation for the atomic withdraw, with every guard
discharged. -/
theorem withdraw_commit_eq (s : LedgerState) (a : Nat) (acct : Account) (amt : Int)
    (now : Nat) (k : Option Nat)
    (hget : getById s a = some acct) (hact : acct.activeFlag = true)
    (hfunds : ¬ acct.balanceCents < amt) (hpos : ¬ amt ≤ 0)
    (hcv : ¬ centsInvalid amt = true)
    (hk : k.bind (findByIdempotencyKey s.transactions) = none)
    (hlim : ¬ sumWithdrawalsForDay s.transactions a (dayOf now) + amt >
        acct.dailyWithdrawalLimitCents) :
    withdraw s a amt now k =
      .ok (acct.balanceCents - amt, s.nextTransactionId,
        { setAccount s a { acct with balanceCents := acct.balanceCents - amt } with
            transactions := s.transactions ++
              [{ transactionId := s.nextTransactionId, accountId := a,
                 valueCents := -amt, transactionDate := now,
                 balanceAfter := acct.balanceCents - amt, idempotencyKey := k }],
            nextTransactionId := s.nextTransactionId + 1 }) := by
  unfold withdraw atomicWithdraw
  rw [if_neg hpos, if_neg hcv, hk, hget]
  have hneg : ¬ (acct.balanceCents - amt < 0) := by omega
  simp [hact, hfunds, hlim, hneg]

/-- Successful-path equation for the atomic deposit, with every guard
discharged. -/
theorem deposit_commit_eq (s : LedgerState) (a : Nat) (acct : Account) (amt : Int)
    (now : Nat) (k : Option Nat)
    (hget : getById s a = some acct) (hact : acct.activeFlag = true)
    (hpos : ¬ amt ≤ 0) (hcv : ¬ centsInvalid amt = true)
    (hk : k.bind (findByIdempotencyKey s.transactions) = none)
    (hover : ¬ acct.balanceCents + amt > maxSafeInteger) :
    deposit s a amt now k =
      .ok (acct.balanceCents + amt, s.nextTransactionId,
        { setAccount s a { acct with balanceCents := acct.balanceCents + amt } with
            transactions := s.transactions ++
              [{ transactionId := s.nextTransactionId, accountId := a,
                 valueCents := amt, transactionDate := now,
                 balanceAfter := acct.balanceCents + amt, idempotencyKey := k }],
            nextTransactionId := s.nextTransactionId + 1 }) := by
  unfold deposit atomicDeposit
  rw [if_neg hpos, if_neg hcv, hk, hget]
  simp [hact, hover]

/-- C3: on an active account with sufficient balance (and no replayed
idempotency key), withdraw fails with DailyLimitExceeded exactly when
`dailyTotal + amountCents > dailyWithdrawalLimitCents`, where
`dailyTotal` sums `|valueCents|` over the account's negative entries of
the same UTC day; reaching the limit exactly succeeds, exceeding it by
any amount fails. -/
theorem daily_limit_boundary (s : LedgerState) (a : Nat) (acct : Account) (amt : Int)
    (now : Nat) (k : Option Nat)
    (hget : getById s a = some acct) (hact : acct.activeFlag = true)
    (hfunds : amt ≤ acct.balanceCents) (hpos : 0 < amt)
    (hcv : centsInvalid amt = false)
    (hk : k.bind (findByIdempotencyKey s.transactions) = none) :
    withdraw s a amt now k = .error .dailyLimitExceeded ↔
      acct.dailyWithdrawalLimitCents <
        sumWithdrawalsForDay s.transactions a (dayOf now) + amt := by
  by_cases hcond : sumWithdrawalsForDay s.transactions a (dayOf now) + amt >
      acct.dailyWithdrawalLimitCents
  · have hrun : withdraw s a amt now k = .error .dailyLimitExceeded := by
      unfold withdraw atomicWithdraw
      rw [if_neg (not_le.mpr hpos), if_neg (by simp [hcv]), hk, hget]
      simp [hact, not_lt.mpr hfunds, hcond]
    rw [hrun]
    simp [hcond]
  · rw [withdraw_commit_eq s a acct amt now k hget hact (not_lt.mpr hfunds)
      (not_le.mpr hpos) (by simp [hcv]) hk hcond]
    simp [hcond]

/-- Witness for C3: limit 1000, no prior withdrawals — withdrawing 1001
fails with DailyLimitExceeded, withdrawing exactly 1000 does not. -/
theorem daily_limit_boundary_witness :
    withdraw wState 0 1001 0 none = .error .dailyLimitExceeded ∧
    ¬ (withdraw wState 0 1000 0 none = .error .dailyLimitExceeded) :=
  ⟨(daily_limit_boundary wState 0 wAcct 1001 0 none (by decide) (by decide) (by decide)
      (by decide) (by decide) (by decide)).mpr (by decide),
   fun h => absurd ((daily_limit_boundary wState 0 wAcct 1000 0 none (by decide) (by decide)
      (by decide) (by decide) (by decide) (by decide)).mp h) (by decide)⟩

/-- Replay equation: when a journal entry already carries the request's
idempotency key for the same account, the deposit short-circuits and
returns the stored `balanceAfter`/`transactionId` without touching the
ledger (memoryAccountsRepo.ts lines 72-86). -/
theorem deposit_replay_eq (s : LedgerState) (a : Nat) (amt : Int) (now : Nat)
    (key : Nat) (tx : Txn)
    (hfind : findByIdempotencyKey s.transactions key = some tx)
    (hacct : tx.accountId = a) (hpos : ¬ amt ≤ 0) (hcv : ¬ centsInvalid amt = true) :
    deposit s a amt now (some key) = .ok (tx.balanceAfter, tx.transactionId, s) := by
  unfold deposit atomicDeposit
  rw [if_neg hpos, if_neg hcv]
  rw [show (some key).bind (findByIdempotencyKey s.transactions) = some tx from hfind]
  simp [hacct]

/-- C4: a deposit issued twice with the same idempotency key on the
same account returns the same transactionId and the same balanceCents
both times, and the ledger state after the second call is exactly the
state after the first — the balance increases exactly once. -/
theorem deposit_idempotent_replay (s : LedgerState) (a : Nat) (acct : Account)
    (amt : Int) (now1 now2 : Nat) (key : Nat)
    (hget : getById s a = some acct) (hact : acct.activeFlag = true)
    (hfresh : findByIdempotencyKey s.transactions key = none)
    (hpos : 0 < amt) (hcv : centsInvalid amt = false)
    (hover : acct.balanceCents + amt ≤ maxSafeInteger) :
    ∃ s1 : LedgerState,
      deposit s a amt now1 (some key) =
        .ok (acct.balanceCents + amt, s.nextTransactionId, s1) ∧
      deposit s1 a amt now2 (some key) =
        .ok (acct.balanceCents + amt, s.nextTransactionId, s1) := by
  have hk : (some key).bind (findByIdempotencyKey s.transactions) = none := hfresh
  have h1 := deposit_commit_eq s a acct amt now1 (some key) hget hact
    (not_le.mpr hpos) (by simp [hcv]) hk (not_lt.mpr hover)
  refine ⟨_, h1, ?_⟩
  have hfind : findByIdempotencyKey
      (s.transactions ++
        [{ transactionId := s.nextTransactionId, accountId := a,
           valueCents := amt, transactionDate := now1,
           balanceAfter := acct.balanceCents + amt, idempotencyKey := some key }])
      key = some
        { transactionId := s.nextTransactionId, accountId := a,
          valueCents := amt, transactionDate := now1,
          balanceAfter := acct.balanceCents + amt, idempotencyKey := some key } := by
    unfold findByIdempotencyKey at hfresh ⊢
    rw [List.find?_append, hfresh]
    simp
  exact deposit_replay_eq
    { setAccount s a { acct with balanceCents := acct.balanceCents + amt } with
        transactions := s.transactions ++
          [{ transactionId := s.nextTransactionId, accountId := a,
             valueCents := amt, transactionDate := now1,
             balanceAfter := acct.balanceCents + amt, idempotencyKey := some key }],
        nextTransactionId := s.nextTransactionId + 1 }
    a amt now2 key
    { transactionId := s.nextTransactionId, accountId := a,
      valueCents := amt, transactionDate := now1,
      balanceAfter := acct.balanceCents + amt, idempotencyKey := some key }
    hfind rfl (not_le.mpr hpos) (by simp [hcv])

/-- Witness for C4: on `wState` a deposit of 500 with key 7 yields
balance 5500 and transaction id 0 twice, with a single journal entry. -/
theorem deposit_idempotent_replay_witness :
    ∃ s1 : LedgerState,
      deposit wState 0 500 0 (some 7) = .ok (5500, 0, s1) ∧
      deposit s1 0 500 9 (some 7) = .ok (5500, 0, s1) :=
  deposit_idempotent_replay wState 0 wAcct 500 0 9 7 (by decide) (by decide)
    (by decide) (by decide) (by decide) (by decide)

theorem find?_key_fresh {l : List (Nat × Account)} {n : Nat}
    (h : ∀ p ∈ l, p.1 < n) : l.find? (fun p => p.1 == n) = none := by
  apply List.find?_eq_none.mpr
  intro p hp
  simp only [beq_iff_eq]
  exact fun he => absurd (he ▸ h p hp) (lt_irrefl _)

theorem filter_txs_fresh {l : List Txn} {n : Nat}
    (h : ∀ t ∈ l, t.accountId < n) :
    l.filter (fun t => t.accountId == n) = [] := by
  apply List.filter_eq_nil_iff.mpr
  intro t ht
  simp only [beq_iff_eq]
  exact fun he => absurd (he ▸ h t ht) (lt_irrefl _)

/-- C5: creating an account with a positive initial balance is atomic:
when the opening journal insert fails, the creation surfaces the error
and no account row nor journal entry for the fresh account id is
visible; on success the account's balance is the opening amount and its
journal holds exactly one entry of that value. -/
theorem create_with_initial_balance_atomic :
    (∀ (vps : List Nat) (ops : List Op) (input : CreateAccountInput)
        (initial : Int) (date : Nat),
        (runOps vps ops).validPersonIds.contains input.personId = true →
        0 < initial →
        createWithInitialBalance (runOps vps ops) input initial date true =
          .error (.internal ("journal insert failed")) ∧
        getById (runOps vps ops) (runOps vps ops).nextAccountId = none ∧
        (runOps vps ops).transactions.filter
          (fun t => t.accountId == (runOps vps ops).nextAccountId) = []) ∧
    (∀ (vps : List Nat) (ops : List Op) (req : CreateAccountRequest) (now : Nat)
        (aId : Nat) (s' : LedgerState),
        req.initialBalanceCents = some 5000 →
        createAccount (runOps vps ops) req now = .ok (aId, s') →
        (getById s' aId).map (fun acct => acct.balanceCents) = some 5000 ∧
        (s'.transactions.filter (fun t => t.accountId == aId)).map
          (fun t => t.valueCents) = [5000]) := by
  constructor
  · intro vps ops input initial date hvalid hgt
    obtain ⟨hKeys, hTx, _, _⟩ := LedgerInv_runOps vps ops
    refine ⟨?_, ?_, filter_txs_fresh hTx⟩
    · unfold createWithInitialBalance
      rw [if_neg (by rw [hvalid]; decide), if_pos hgt, if_pos rfl]
    · unfold getById
      rw [find?_key_fresh hKeys]
      rfl
  · intro vps ops req now aId s' hreq h
    obtain ⟨hKeys, hTx, _, _⟩ := LedgerInv_runOps vps ops
    unfold createAccount at h
    simp only [hreq, Option.getD_some] at h
    rw [if_neg (by decide : ¬ ((5000 : Int) < 0)),
        if_neg (by decide : ¬ (centsInvalid 5000 = true))] at h
    by_cases h3 : centsInvalid req.dailyWithdrawalLimitCents = true
    · rw [if_pos h3] at h
      simp at h
    · rw [if_neg h3] at h
      unfold createWithInitialBalance at h
      split at h
      · simp at h
      · rw [if_pos (by decide : (5000 : Int) > 0), if_neg (by decide : ¬ (false = true))] at h
        simp only [Except.ok.injEq, Prod.mk.injEq] at h
        obtain ⟨haId, hs'⟩ := h
        subst haId
        subst hs'
        constructor
        · unfold getById
          simp only
          rw [List.find?_append, find?_key_fresh hKeys]
          simp
        · simp only
          rw [List.filter_append, filter_txs_fresh hTx]
          simp

/-- Creation input used by the C5 witness. -/
def wInput : CreateAccountInput :=
  { personId := 1, balanceCents := 5000, dailyWithdrawalLimitCents := 100000,
    activeFlag := true, accountType := 0, createDate := 0 }

/-- Account row produced by creating `sampleReq` on the empty ledger. -/
def createdAcct : Account :=
  { personId := 1, balanceCents := 5000, dailyWithdrawalLimitCents := 100000,
    activeFlag := true, accountType := 0, createDate := 0 }

/-- Opening journal entry produced by creating `sampleReq` on the empty
ledger. -/
def createdTx : Txn :=
  { transactionId := 0, accountId := 0, valueCents := 5000, transactionDate := 0,
    balanceAfter := 5000, idempotencyKey := none }

/-- Ledger produced by creating `sampleReq` on the empty ledger. -/
def createdState : LedgerState :=
  { accounts := [(0, createdAcct)], transactions := [createdTx],
    nextAccountId := 1, nextTransactionId := 1, validPersonIds := [1] }

/-- Witness for C5: on the empty ledger a failed journal insert leaves
no account visible, while the successful creation with amount 5000
yields balance 5000 and exactly one journal entry of value 5000. -/
theorem create_with_initial_balance_atomic_witness :
    createWithInitialBalance (runOps [1] []) wInput 5000 0 true =
      .error (.internal ("journal insert failed")) ∧
    getById (runOps [1] []) (runOps [1] []).nextAccountId = none ∧
    createAccount (runOps [1] []) sampleReq 0 = .ok (0, createdState) ∧
    (getById createdState 0).map (fun acct => acct.balanceCents) = some 5000 ∧
    (createdState.transactions.filter (fun t => t.accountId == 0)).map
      (fun t => t.valueCents) = [5000] :=
  ⟨(create_with_initial_balance_atomic.1 [1] [] wInput 5000 0 (by decide) (by decide)).1,
   (create_with_initial_balance_atomic.1 [1] [] wInput 5000 0 (by decide) (by decide)).2.1,
   rfl,
   (create_with_initial_balance_atomic.2 [1] [] sampleReq 0 0 createdState
     (by decide) rfl).1,
   (create_with_initial_balance_atomic.2 [1] [] sampleReq 0 0 createdState
     (by decide) rfl).2⟩

/-- C6: with `activeFlag = false`, deposit and withdraw fail with
AccountBlocked and blockAccount fails with AlreadyBlocked; with
`activeFlag = true`, unblockAccount fails with AlreadyUnblocked; every
such failure leaves the ledger unchanged.  (Per the idempotency
resolver's contract, a replayed idempotency key short-circuits before
the blocked check, so the deposit/withdraw statements take a
non-replayed key.) -/
theorem blocked_account_guards :
    (∀ (s : LedgerState) (a : Nat) (acct : Account) (amt : Int) (now : Nat)
        (k : Option Nat),
        getById s a = some acct → acct.activeFlag = false →
        k.bind (findByIdempotencyKey s.transactions) = none →
        0 < amt → centsInvalid amt = false →
        deposit s a amt now k = .error .accountBlocked ∧
        withdraw s a amt now k = .error .accountBlocked ∧
        blockAccount s a = .error .alreadyBlocked ∧
        step s (.depositOp a amt now k) = s ∧
        step s (.withdrawOp a amt now k) = s ∧
        step s (.blockOp a) = s) ∧
    (∀ (s : LedgerState) (a : Nat) (acct : Account),
        getById s a = some acct → acct.activeFlag = true →
        unblockAccount s a = .error .alreadyUnblocked ∧
        step s (.unblockOp a) = s) := by
  constructor
  · intro s a acct amt now k hget hblocked hk hpos hcv
    have hd : deposit s a amt now k = .error .accountBlocked := by
      unfold deposit atomicDeposit
      rw [if_neg (not_le.mpr hpos), if_neg (by simp [hcv]), hk, hget]
      simp [hblocked]
    have hw : withdraw s a amt now k = .error .accountBlocked := by
      unfold withdraw atomicWithdraw
      rw [if_neg (not_le.mpr hpos), if_neg (by simp [hcv]), hk, hget]
      simp [hblocked]
    have hb : blockAccount s a = .error .alreadyBlocked := by
      unfold blockAccount
      rw [hget]
      simp [hblocked]
    exact ⟨hd, hw, hb, by simp [step, hd], by simp [step, hw], by simp [step, hb]⟩
  · intro s a acct hget hact
    have hu : unblockAccount s a = .error .alreadyUnblocked := by
      unfold unblockAccount
      rw [hget]
      simp [hact]
    exact ⟨hu, by simp [step, hu]⟩

/-- Witness for C6: the blocked sample account rejects a 100-cent
deposit and withdraw and a repeated block, all without effect; the
active sample account rejects a repeated unblock. -/
theorem blocked_account_guards_witness :
    deposit wBlockedState 0 100 0 none = .error .accountBlocked ∧
    withdraw wBlockedState 0 100 0 none = .error .accountBlocked ∧
    blockAccount wBlockedState 0 = .error .alreadyBlocked ∧
    step wBlockedState (.depositOp 0 100 0 none) = wBlockedState ∧
    unblockAccount wState 0 = .error .alreadyUnblocked :=
  have h1 := blocked_account_guards.1 wBlockedState 0 wBlockedAcct 100 0 none
    (by decide) (by decide) (by decide) (by decide) (by decide)
  have h2 := blocked_account_guards.2 wState 0 wAcct (by decide) (by decide)
  ⟨h1.1, h1.2.1, h1.2.2.1, h1.2.2.2.1, h2.1⟩

/-- C10: blockAccount and unblockAccount change only the account's
`activeFlag`: the successful result row is exactly the old row with the
flag replaced (so personId, balanceCents, dailyWithdrawalLimitCents,
accountType and createDate are untouched), the journal is unchanged (no
entry is created), and every other account reads back unchanged. -/
theorem set_active_flag_frame (s : LedgerState) (a : Nat) (acct : Account)
    (hget : getById s a = some acct) :
    (∀ (acct2 : Account) (s' : LedgerState), blockAccount s a = .ok (acct2, s') →
       acct2 = { acct with activeFlag := false } ∧
       s'.transactions = s.transactions ∧
       getById s' a = some acct2 ∧
       ∀ b, b ≠ a → getById s' b = getById s b) ∧
    (∀ (acct2 : Account) (s' : LedgerState), unblockAccount s a = .ok (acct2, s') →
       acct2 = { acct with activeFlag := true } ∧
       s'.transactions = s.transactions ∧
       getById s' a = some acct2 ∧
       ∀ b, b ≠ a → getById s' b = getById s b) := by
  constructor
  · intro acct2 s' h
    unfold blockAccount setActiveFlag at h
    rw [hget] at h
    by_cases hact : acct.activeFlag = true
    · simp [hact] at h
      obtain ⟨h1, h2⟩ := h
      subst h1
      subst h2
      refine ⟨rfl, rfl, ?_, ?_⟩
      · rw [getById_setAccount, if_pos rfl, hget]
        rfl
      · intro b hb
        rw [getById_setAccount, if_neg hb]
    · simp [hact] at h
  · intro acct2 s' h
    unfold unblockAccount setActiveFlag at h
    rw [hget] at h
    by_cases hact : acct.activeFlag = true
    · simp [hact] at h
    · simp [hact] at h
      obtain ⟨h1, h2⟩ := h
      subst h1
      subst h2
      refine ⟨rfl, rfl, ?_, ?_⟩
      · rw [getById_setAccount, if_pos rfl, hget]
        rfl
      · intro b hb
        rw [getById_setAccount, if_neg hb]

/-- Witness for C10: blocking the sample account only flips its flag
(yielding `wBlockedAcct`/`wBlockedState`), with the journal and other
ids untouched; unblocking it restores `wAcct`/`wState`. -/
theorem set_active_flag_frame_witness :
    wBlockedAcct = { wAcct with activeFlag := false } ∧
    wBlockedState.transactions = wState.transactions ∧
    getById wBlockedState 0 = some wBlockedAcct ∧
    getById wBlockedState 5 = getById wState 5 ∧
    wAcct = { wBlockedAcct with activeFlag := true } :=
  have hb := (set_active_flag_frame wState 0 wAcct (by decide)).1 wBlockedAcct
    wBlockedState rfl
  have hu := (set_active_flag_frame wBlockedState 0 wBlockedAcct (by decide)).2 wAcct
    wState rfl
  ⟨hb.1, hb.2.1, hb.2.2.1, hb.2.2.2 5 (by decide), hu.1⟩

theorem withRetryFrom_tries_pos (b : Nat) (j : Nat → Nat) (sc : Nat → AttemptOutcome) :
    ∀ (rem a : Nat), 1 ≤ (withRetryFrom b j sc a rem).tries := by
  intro rem
  induction rem with
  | zero =>
    intro a
    cases hsc : sc a <;> simp [withRetryFrom, hsc]
  | succ n ih =>
    intro a
    cases hsc : sc a with
    | success => simp [withRetryFrom, hsc]
    | failure code =>
      cases hr : isRetryableError code <;> simp [withRetryFrom, hsc, hr]

theorem withRetryFrom_tries_le (b : Nat) (j : Nat → Nat) (sc : Nat → AttemptOutcome) :
    ∀ (rem a : Nat), (withRetryFrom b j sc a rem).tries ≤ rem + 1 := by
  intro rem
  induction rem with
  | zero =>
    intro a
    cases hsc : sc a <;> simp [withRetryFrom, hsc]
  | succ n ih =>
    intro a
    cases hsc : sc a with
    | success => simp [withRetryFrom, hsc]
    | failure code =>
      cases hr : isRetryableError code
      · simp [withRetryFrom, hsc, hr]
      · simp only [withRetryFrom, hsc, hr, if_pos]
        have := ih (a + 1)
        omega

theorem withRetryFrom_delays (b : Nat) (j : Nat → Nat) (sc : Nat → AttemptOutcome) :
    ∀ (rem a : Nat),
      (withRetryFrom b j sc a rem).delays =
        (List.range ((withRetryFrom b j sc a rem).tries - 1)).map
          (fun i => b * 2 ^ (a + i) + j (a + i)) := by
  intro rem
  induction rem with
  | zero =>
    intro a
    cases hsc : sc a <;> simp [withRetryFrom, hsc]
  | succ n ih =>
    intro a
    cases hsc : sc a with
    | success => simp [withRetryFrom, hsc]
    | failure code =>
      cases hr : isRetryableError code
      · simp [withRetryFrom, hsc, hr]
      · simp only [withRetryFrom, hsc, hr, if_pos, Nat.add_sub_cancel]
        have hpos := withRetryFrom_tries_pos b j sc n (a + 1)
        have hsplit : (withRetryFrom b j sc (a + 1) n).tries =
            ((withRetryFrom b j sc (a + 1) n).tries - 1) + 1 := by omega
        rw [hsplit, List.range_succ_eq_map, List.map_cons, List.map_map]
        rw [List.cons.injEq]
        constructor
        · simp
        · rw [ih (a + 1)]
          apply List.map_congr_left
          intro i _
          have harith : a + 1 + i = a + (i + 1) := by omega
          simp [Function.comp, harith]

/-- C7 (amended): the retry wrapper retries only failures classified as
backend contention (serialization failure 40001, deadlock 40P01, lock
not available 55P03) and never domain errors; a non-retryable failure
surfaces immediately after a single try; before retry number
`attemptNum + 1` it waits `baseDelay * 2 ^ attemptNum +
jitter attemptNum` (the sampled `random(0, baseDelay)`); and it
performs at most `maxRetries + 1` total tries — the initial attempt
plus up to `maxRetries = config.RETRY_MAX_ATTEMPTS` retries. -/
theorem retry_policy_amended :
    (∀ code, isRetryableError code = true ↔
       (code = "40001" ∨ code = "40P01" ∨ code = "55P03")) ∧
    (∀ code, code ∈ domainErrorCodes → isRetryableError code = false) ∧
    (∀ (b : Nat) (j : Nat → Nat) (sc : Nat → AttemptOutcome) (a rem : Nat)
        (code : String),
        sc a = .failure code → isRetryableError code = false →
        withRetryFrom b j sc a rem =
          { succeeded := false, failCode := some code, tries := 1, delays := [] }) ∧
    (∀ (m b : Nat) (j : Nat → Nat) (sc : Nat → AttemptOutcome),
        (withRetry m b j sc).tries ≤ m + 1) ∧
    (∀ (m b : Nat) (j : Nat → Nat) (sc : Nat → AttemptOutcome),
        (withRetry m b j sc).delays =
          (List.range ((withRetry m b j sc).tries - 1)).map
            (fun i => b * 2 ^ i + j i)) := by
  refine ⟨?_, ?_, ?_, ?_, ?_⟩
  · intro code
    simp [isRetryableError, or_assoc]
  · intro code hmem
    simp [domainErrorCodes] at hmem
    rcases hmem with h | h | h | h | h | h | h | h <;> subst h <;> decide
  · intro b j sc a rem code hsc hr
    cases rem with
    | zero => simp [withRetryFrom, hsc]
    | succ n => simp [withRetryFrom, hsc, hr]
  · intro m b j sc
    exact withRetryFrom_tries_le b j sc m 0
  · intro m b j sc
    have h := withRetryFrom_delays b j sc m 0
    unfold withRetry
    rw [h]
    apply List.map_congr_left
    intro i _
    simp

/-- Counterexample to C7 as stated: with `maxAttempts = 3` (the default
`RETRY_MAX_ATTEMPTS`) and every attempt failing with the retryable code
40001, the wrapper executes 4 tries — the initial attempt plus 3
retries — exceeding "at most maxAttempts total tries". -/
theorem retry_total_tries_exceeds_max_attempts :
    (withRetry 3 50 (fun _ => 25) (fun _ => .failure ("40001"))).tries = 4 ∧
    ¬ ((withRetry 3 50 (fun _ => 25) (fun _ => .failure ("40001"))).tries ≤ 3) := by
  constructor
  · rfl
  · decide

/-- Witness for C7 (amended): a non-retryable unique-violation code
stops after one try with no backoff; INSUFFICIENT_FUNDS is never
retryable; and the all-retryable run stays within maxRetries + 1
tries. -/
theorem retry_policy_amended_witness :
    ((fun _ : Nat => AttemptOutcome.failure ("23505")) 0 = .failure ("23505")) ∧
    isRetryableError ("23505") = false ∧
    withRetryFrom 50 (fun _ => 0) (fun _ => .failure ("23505")) 0 3 =
      { succeeded := false, failCode := some ("23505"), tries := 1, delays := [] } ∧
    ("INSUFFICIENT_FUNDS" ∈ domainErrorCodes ∧
      isRetryableError ("INSUFFICIENT_FUNDS") = false) ∧
    (withRetry 3 50 (fun _ => 0) (fun _ => .failure ("40001"))).tries ≤ 3 + 1 :=
  ⟨rfl, by decide,
   retry_policy_amended.2.2.1 50 (fun _ => 0) (fun _ => .failure ("23505")) 0 3
     ("23505") rfl (by decide),
   ⟨by decide, retry_policy_amended.2.1 ("INSUFFICIENT_FUNDS") (by decide)⟩,
   retry_policy_amended.2.2.2.1 3 50 (fun _ => 0) (fun _ => .failure ("40001"))⟩

/-- C8 (code bug): the in-tree AccountsService.withdraw (service.ts
lines 458-463) interpolates the exact deficit into the
InsufficientFunds message — two failing withdraws on the same account
produce different, deficit-revealing messages — while the atomic
repository path deliberately throws the generic message ("Don't expose
exact deficit for security reasons", memoryAccountsRepo.ts line 153,
postgresAccountsRepo.ts line 389), which is what the spec requires. -/
theorem insufficient_funds_message_leaks_deficit :
    legacyWithdraw lowState 0 300 0 =
      .error (.insufficientFunds ("Insufficient funds: short by 200 cents")) ∧
    legacyWithdraw lowState 0 400 0 =
      .error (.insufficientFunds ("Insufficient funds: short by 300 cents")) ∧
    (("Insufficient funds: short by 200 cents") ≠ insufficientFundsDefaultMsg) ∧
    (("Insufficient funds: short by 200 cents") ≠
      ("Insufficient funds: short by 300 cents")) ∧
    withdraw lowState 0 300 0 none =
      .error (.insufficientFunds insufficientFundsDefaultMsg) := by
  refine ⟨rfl, rfl, by decide, by decide, rfl⟩

/-- Invariant of one mutex: when unlocked nobody holds it and nobody
waits; when locked exactly one context holds it. -/
def MutexInv (m : MutexState) : Prop :=
  (m.locked = false → m.holders = [] ∧ m.queue = []) ∧
  (m.locked = true → m.holders.length = 1)

theorem MutexInv_minit : MutexInv minit := by
  constructor <;> simp [minit]

theorem MutexInv_mstep {m : MutexState} (e : MEvent) (hInv : MutexInv m) :
    MutexInv (mstep m e) := by
  obtain ⟨hfree, hone⟩ := hInv
  cases e with
  | acquire w =>
    simp only [mstep]
    unfold lockAcquire
    by_cases hl : m.locked = true
    · rw [if_pos hl]
      exact ⟨by simp [hl], fun _ => hone hl⟩
    · rw [if_neg hl]
      have hm := hfree (by simpa using hl)
      refine ⟨by simp, fun _ => ?_⟩
      simp [hm.1]
  | release =>
    simp only [mstep]
    cases hh : m.holders with
    | nil => exact ⟨hfree, hone⟩
    | cons c cs =>
      have hl : m.locked = true := by
        cases hlv : m.locked
        · have h2 := (hfree hlv).1
          rw [hh] at h2
          simp at h2
        · rfl
      have hlen := hone hl
      rw [hh] at hlen
      simp at hlen
      subst hlen
      unfold releaseLock
      cases hq : m.queue with
      | nil =>
        refine ⟨fun _ => ?_, by simp⟩
        simp [hh, hq, List.erase_cons]
      | cons n ns =>
        refine ⟨by simp [hl], fun _ => ?_⟩
        simp [hh, List.erase_cons]

theorem MutexInv_mrun (events : List MEvent) : MutexInv (mrun events) := by
  unfold mrun
  induction events using List.reverseRecOn with
  | nil => exact MutexInv_minit
  | append_singleton es e ih =>
    rw [List.foldl_append]
    exact MutexInv_mstep e ih

theorem releasesGrant_fifo {m : MutexState} (hInv : MutexInv m) :
    releasesGrant m m.queue.length = m.queue := by
  obtain ⟨locked, holders, queue⟩ := m
  revert hInv
  induction queue generalizing locked holders with
  | nil =>
    intro hInv
    rfl
  | cons n ns ih =>
    intro hInv
    obtain ⟨hfree, hone⟩ := hInv
    have hl : locked = true := by
      cases hlv : locked
      · have h2 := (hfree (by simp [hlv])).2
        simp at h2
      · rfl
    subst hl
    have hlen := hone rfl
    obtain ⟨c, hc⟩ := List.length_eq_one.mp hlen
    subst hc
    show releasesGrant ⟨true, [c], n :: ns⟩ (ns.length + 1) = n :: ns
    simp only [releasesGrant, releaseLock, List.erase_cons_head]
    simp only [Option.toList_some, List.nil_append, List.singleton_append]
    rw [List.cons.injEq]
    refine ⟨rfl, ?_⟩
    exact ih true ([] ++ [n]) ⟨by simp, by simp⟩

/-- C9: for every key, the gate allows at most one holder at a time
(over every event sequence from a fresh mutex); successive invocations
of the release handle wake the queued waiters exactly in FIFO arrival
order; and the cleanup sweep never evicts an entry whose mutex is held
or has queued waiters. -/
theorem mutex_exclusion_fifo_cleanup :
    (∀ events : List MEvent, (mrun events).holders.length ≤ 1) ∧
    (∀ events : List MEvent,
       releasesGrant (mrun events) (mrun events).queue.length = (mrun events).queue) ∧
    (∀ (mmap : List (Nat × MutexEntry)) (now key : Nat) (e : MutexEntry),
       (key, e) ∈ mmap → isLocked e.mutex = true → (key, e) ∈ cleanup mmap now) := by
  refine ⟨?_, ?_, ?_⟩
  · intro events
    obtain ⟨hfree, hone⟩ := MutexInv_mrun events
    cases hlv : (mrun events).locked
    · simp [(hfree hlv).1]
    · simp [hone hlv]
  · intro events
    exact releasesGrant_fifo (MutexInv_mrun events)
  · intro mmap now key e hmem hlocked
    unfold cleanup
    apply List.mem_filter.mpr
    exact ⟨hmem, by simp [hlocked]⟩

/-- Sample mutex trace: two contending acquisitions and one release. -/
def sampleMutexEvents : List MEvent := [.acquire 1, .acquire 2, .acquire 3, .release]

/-- Entry whose mutex is held, far beyond the idle TTL. -/
def heldEntry : MutexEntry :=
  { mutex := { locked := true, holders := [1], queue := [2] }, lastUsed := 0 }

/-- Witness for C9: under contention the sample trace keeps a single
holder, releases grant the queue in order, and the long-idle held
entry survives cleanup. -/
theorem mutex_exclusion_fifo_cleanup_witness :
    (mrun sampleMutexEvents).holders.length ≤ 1 ∧
    releasesGrant (mrun sampleMutexEvents) (mrun sampleMutexEvents).queue.length =
      (mrun sampleMutexEvents).queue ∧
    ((0, heldEntry) ∈ [(0, heldEntry)] ∧ isLocked heldEntry.mutex = true ∧
      (0, heldEntry) ∈ cleanup [(0, heldEntry)] 1000000000) :=
  ⟨mutex_exclusion_fifo_cleanup.1 sampleMutexEvents,
   mutex_exclusion_fifo_cleanup.2.1 sampleMutexEvents,
   by decide, by decide,
   mutex_exclusion_fifo_cleanup.2.2 [(0, heldEntry)] 1000000000 0 heldEntry
     (by decide) (by decide)⟩
